import Mathlib

/-!
Shallow embedding of the opaque key/value cache implemented in
src/lib/Basic/Cache.cpp (class CacheImpl over an anonymous DefaultCache).

Modelling decisions, each tied to a line of the source:

* Keys and values are opaque pointers (void star) in the source; here they are
  type parameters K and V with decidable equality standing for pointer
  identity.
* The callback table (swift::sys::CacheImpl::CallBacks) supplies the hash and
  equality functions used by llvm::DenseMapInfo<DefaultCacheKey>.  The two
  destroy callbacks are side-effecting void functions; their invocations are
  the observable behaviour, so the state carries an append-only event log and
  every call the source makes to keyDestroyCB / valueDestroyCB appends one
  event, in source order.
* llvm::DenseMap<DefaultCacheKey, void star> is modelled as an association
  list in insertion order.  DenseMap compares a probe key against stored keys
  with DenseMapInfo<DefaultCacheKey>::isEqual, which returns true when the raw
  pointers coincide and otherwise defers to keyIsEqualCB; the empty/tombstone
  sentinel branches can never fire for user keys and are omitted.  The list
  model agrees with DenseMap under the documented requirement that the hash
  callback agrees with the equality callback.
* DefaultCache stores a mutex (Mux), the callback table (CBs) and the map
  (Entries).  The mutex is a runtime concurrency artefact with no sequential
  content, so the state keeps only CBs and Entries, the event log, and a
  liveness flag recording whether CacheImpl::destroy has deleted the instance.
-/

namespace TinySwiftCache

/-- Callback table from swift/Basic/Cache.h as used by Cache.cpp: a hash
function and an equality predicate over keys.  The destroy callbacks are
represented by the event log in `DefaultCache`, not by function fields,
because only their invocations are observable to the cache. -/
structure CallBacks (K V : Type) where
  keyHashCB : K → Nat
  keyIsEqualCB : K → K → Bool

/-- Record of a single destroy-callback invocation made by the cache. -/
inductive CacheEvent (K V : Type) where
  | destroyKey (k : K)
  | destroyValue (v : V)
deriving DecidableEq

/-- State of one cache instance: the DefaultCache struct of Cache.cpp
(callback table and DenseMap of entries), extended with the log of destroy
events and a flag that is true between create and destroy. -/
structure DefaultCache (K V : Type) where
  CBs : CallBacks K V
  Entries : List (K × V)
  events : List (CacheEvent K V)
  live : Bool

variable {K V : Type} [DecidableEq K] [DecidableEq V]

/-- Effective key comparison, from DenseMapInfo<DefaultCacheKey>::isEqual in
Cache.cpp: raw pointer equality short-circuits to true, otherwise the
caller-supplied keyIsEqualCB decides. -/
def keysMatch (CBs : CallBacks K V) (lhs rhs : K) : Bool :=
  decide (lhs = rhs) || CBs.keyIsEqualCB lhs rhs

/-- DenseMap::find on the association-list model: first entry whose stored
key matches the probe key. -/
def findEntry? (CBs : CallBacks K V) (entries : List (K × V)) (key : K) :
    Option (K × V) :=
  entries.find? fun e => keysMatch CBs key e.1

/-- DenseMap::erase of the entry located by find: remove the first matching
entry, keep everything else. -/
def denseMapErase (CBs : CallBacks K V) (key : K) :
    List (K × V) → List (K × V)
  | [] => []
  | e :: rest =>
      if keysMatch CBs key e.1 then rest
      else e :: denseMapErase CBs key rest

/-- DenseMap subscript assignment (Entries[CKey] = Value): overwrite the
value of the first matching entry, keeping the stored key, or append a new
entry when no key matches. -/
def denseMapAssign (CBs : CallBacks K V) (key : K) (value : V) :
    List (K × V) → List (K × V)
  | [] => [(key, value)]
  | e :: rest =>
      if keysMatch CBs key e.1 then (e.1, value) :: rest
      else e :: denseMapAssign CBs key value rest

namespace CacheImpl

/-- CacheImpl::create: allocates a fresh DefaultCache holding the callback
table; the name argument is diagnostic only and is discarded, exactly as the
source discards it. -/
def create (Name : String) (CBs : CallBacks K V) : DefaultCache K V :=
  { CBs := CBs, Entries := [], events := [], live := true }

/-- CacheImpl::setAndRetain: under the instance lock, look the key up; if an
equivalent key is present, invoke keyDestroyCB and valueDestroyCB on the
stored pair and erase it; then store the new pair through the subscript
operator.  The Cost argument is accepted and never read. -/
def setAndRetain (s : DefaultCache K V) (Key : K) (Value : V) (Cost : Nat) :
    DefaultCache K V :=
  match findEntry? s.CBs s.Entries Key with
  | some e =>
      { s with
        events := s.events ++
          [CacheEvent.destroyKey e.1, CacheEvent.destroyValue e.2],
        Entries :=
          denseMapAssign s.CBs Key Value (denseMapErase s.CBs Key s.Entries) }
  | none =>
      { s with Entries := denseMapAssign s.CBs Key Value s.Entries }

/-- CacheImpl::getAndRetain: look the key up and return the stored value
without any modification; the returned state component records that the
source mutates nothing (no retain is performed, see the FIXME in the
source). -/
def getAndRetain (s : DefaultCache K V) (Key : K) :
    Option V × DefaultCache K V :=
  (match findEntry? s.CBs s.Entries Key with
   | some e => some e.2
   | none => none,
   s)

/-- CacheImpl::releaseValue: the body of the source function is empty (FIXME
placeholder), so the state is returned unchanged. -/
def releaseValue (s : DefaultCache K V) (Value : V) : DefaultCache K V :=
  s

/-- CacheImpl::remove: if an equivalent key is present, invoke the two
destroy callbacks on the stored pair, erase it and return true; otherwise
return false having changed nothing. -/
def remove (s : DefaultCache K V) (Key : K) : Bool × DefaultCache K V :=
  match findEntry? s.CBs s.Entries Key with
  | some e =>
      (true,
       { s with
         events := s.events ++
           [CacheEvent.destroyKey e.1, CacheEvent.destroyValue e.2],
         Entries := denseMapErase s.CBs Key s.Entries })
  | none => (false, s)

/-- CacheImpl::removeAll: invoke keyDestroyCB and valueDestroyCB on every
entry, in iteration order, then clear the map. -/
def removeAll (s : DefaultCache K V) : DefaultCache K V :=
  { s with
    events := s.events ++
      s.Entries.flatMap fun e =>
        [CacheEvent.destroyKey e.1, CacheEvent.destroyValue e.2],
    Entries := [] }

/-- CacheImpl::destroy: removeAll followed by deleting the DefaultCache;
deletion of the instance storage is modelled by clearing the live flag. -/
def destroy (s : DefaultCache K V) : DefaultCache K V :=
  { removeAll s with live := false }

end CacheImpl

/-- Sequence of setAndRetain calls (key, value, cost), applied left to
right, as in the testable-properties section of the spec. -/
def runSets (ops : List (K × V × Nat)) (s : DefaultCache K V) :
    DefaultCache K V :=
  ops.foldl (fun st op => CacheImpl.setAndRetain st op.1 op.2.1 op.2.2) s

/-- Uniqueness invariant of the mapping: no two stored entries have matching
keys. -/
def DistinctKeys (CBs : CallBacks K V) (entries : List (K × V)) : Prop :=
  entries.Pairwise fun a b => keysMatch CBs a.1 b.1 = false

/-- Spec-side description of destroy, written from the specification text
alone: destroy is removeAll followed by releasing the instance's own storage
(lock and mapping), after which the handle is invalid; the release of the
storage is modelled by clearing the live flag. -/
def destroySpec (s : DefaultCache K V) : DefaultCache K V :=
  { CacheImpl.removeAll s with live := false }

/-- Concrete callback table on small types, used to instantiate the claim
theorems: keys are equivalent when they agree modulo 2, and the hash agrees
with that equivalence. -/
def testCBs : CallBacks (Fin 4) (Fin 4) :=
  { keyHashCB := fun k => k.val % 2
    keyIsEqualCB := fun a b => decide (a.val % 2 = b.val % 2) }

/-- Name used for the concrete cache instances below. -/
def testName : String := "test"

/-- Freshly created concrete cache instance. -/
def testCache : DefaultCache (Fin 4) (Fin 4) :=
  CacheImpl.create testName testCBs

/-- Concrete cache holding the single entry (0, 1). -/
def testCache1 : DefaultCache (Fin 4) (Fin 4) :=
  CacheImpl.setAndRetain testCache 0 1 0

/-- Concrete cache holding the entries (0, 1) and (1, 2). -/
def testCache2 : DefaultCache (Fin 4) (Fin 4) :=
  CacheImpl.setAndRetain testCache1 1 2 0

lemma keysMatch_self (CBs : CallBacks K V) (k : K) : keysMatch CBs k k = true := by
  simp [keysMatch]

lemma keysMatch_of_isEqual {CBs : CallBacks K V} {a b : K}
    (h : CBs.keyIsEqualCB a b = true) : keysMatch CBs a b = true := by
  simp [keysMatch, h]

lemma keysMatch_eq_false {CBs : CallBacks K V} {k a : K}
    (hrefl : ∀ x, CBs.keyIsEqualCB x x = true)
    (h : CBs.keyIsEqualCB k a = false) : keysMatch CBs k a = false := by
  rcases eq_or_ne k a with rfl | hne
  · rw [hrefl k] at h
    cases h
  · simp [keysMatch, hne, h]

lemma keysMatch_symm_false {CBs : CallBacks K V} {a b : K}
    (hsymm : ∀ x y, CBs.keyIsEqualCB x y = true → CBs.keyIsEqualCB y x = true)
    (h : keysMatch CBs a b = false) : keysMatch CBs b a = false := by
  simp only [keysMatch, Bool.or_eq_false_iff, decide_eq_false_iff_not] at h ⊢
  refine ⟨fun hba => h.1 hba.symm, ?_⟩
  cases hcb : CBs.keyIsEqualCB b a with
  | false => rfl
  | true => exact absurd (hsymm b a hcb) (by simp [h.2])

lemma keysMatch_trans {CBs : CallBacks K V} {a b c : K}
    (htrans : ∀ x y z, CBs.keyIsEqualCB x y = true → CBs.keyIsEqualCB y z = true →
      CBs.keyIsEqualCB x z = true)
    (h1 : keysMatch CBs a b = true) (h2 : keysMatch CBs b c = true) :
    keysMatch CBs a c = true := by
  simp only [keysMatch, Bool.or_eq_true, decide_eq_true_eq] at h1 h2 ⊢
  rcases h1 with rfl | h1
  · exact h2
  rcases h2 with rfl | h2
  · exact Or.inr h1
  · exact Or.inr (htrans a b c h1 h2)

lemma keysMatch_of_pair {CBs : CallBacks K V} {k a b : K}
    (hsymm : ∀ x y, CBs.keyIsEqualCB x y = true → CBs.keyIsEqualCB y x = true)
    (htrans : ∀ x y z, CBs.keyIsEqualCB x y = true → CBs.keyIsEqualCB y z = true →
      CBs.keyIsEqualCB x z = true)
    (h1 : keysMatch CBs k a = true) (h2 : keysMatch CBs k b = true) :
    keysMatch CBs a b = true := by
  simp only [keysMatch, Bool.or_eq_true, decide_eq_true_eq] at h1 h2 ⊢
  rcases h1 with rfl | h1
  · exact h2
  rcases h2 with rfl | h2
  · exact Or.inr (hsymm k a h1)
  · exact Or.inr (htrans a k b (hsymm k a h1) h2)

lemma findEntry?_eq_none {CBs : CallBacks K V} {l : List (K × V)} {k : K} :
    findEntry? CBs l k = none ↔ ∀ e ∈ l, keysMatch CBs k e.1 = false := by
  simp [findEntry?, List.find?_eq_none]

lemma findEntry?_append_absent {CBs : CallBacks K V} {l1 l2 : List (K × V)} {k : K}
    (h : ∀ e ∈ l1, keysMatch CBs k e.1 = false) :
    findEntry? CBs (l1 ++ l2) k = findEntry? CBs l2 k := by
  induction l1 with
  | nil => rfl
  | cons e rest ih =>
      have he : keysMatch CBs k e.1 = false := h e (by simp)
      simp only [List.cons_append, findEntry?, List.find?_cons, he, Bool.false_eq_true,
        reduceCtorEq, cond_false]
      exact ih fun x hx => h x (by simp [hx])

lemma denseMapErase_append_absent {CBs : CallBacks K V} {l1 l2 : List (K × V)} {k : K}
    (h : ∀ e ∈ l1, keysMatch CBs k e.1 = false) :
    denseMapErase CBs k (l1 ++ l2) = l1 ++ denseMapErase CBs k l2 := by
  induction l1 with
  | nil => rfl
  | cons e rest ih =>
      have he : keysMatch CBs k e.1 = false := h e (by simp)
      simp only [List.cons_append, denseMapErase, he, Bool.false_eq_true, if_false]
      exact congrArg (List.cons e) (ih fun x hx => h x (by simp [hx]))

lemma denseMapAssign_absent {CBs : CallBacks K V} {l : List (K × V)} {k : K} {v : V}
    (h : ∀ e ∈ l, keysMatch CBs k e.1 = false) :
    denseMapAssign CBs k v l = l ++ [(k, v)] := by
  induction l with
  | nil => rfl
  | cons e rest ih =>
      have he : keysMatch CBs k e.1 = false := h e (by simp)
      simp only [denseMapAssign, he, Bool.false_eq_true, if_false, List.cons_append]
      exact congrArg (List.cons e) (ih fun x hx => h x (by simp [hx]))

lemma denseMapErase_sublist (CBs : CallBacks K V) (k : K) (l : List (K × V)) :
    List.Sublist (denseMapErase CBs k l) l := by
  induction l with
  | nil => exact List.Sublist.refl []
  | cons e rest ih =>
      by_cases h : keysMatch CBs k e.1 = true
      · simp only [denseMapErase, h, if_true]
        exact List.sublist_cons_self e rest
      · simp only [denseMapErase, h, if_false]
        exact List.Sublist.cons₂ e ih

lemma denseMapErase_absent {CBs : CallBacks K V} {l : List (K × V)} {k : K}
    (hsymm : ∀ x y, CBs.keyIsEqualCB x y = true → CBs.keyIsEqualCB y x = true)
    (htrans : ∀ x y z, CBs.keyIsEqualCB x y = true → CBs.keyIsEqualCB y z = true →
      CBs.keyIsEqualCB x z = true)
    (hpw : DistinctKeys CBs l) :
    ∀ e ∈ denseMapErase CBs k l, keysMatch CBs k e.1 = false := by
  induction l with
  | nil => intro e he; cases he
  | cons x rest ih =>
      rcases List.pairwise_cons.1 hpw with ⟨hx, hrest⟩
      by_cases h : keysMatch CBs k x.1 = true
      · simp only [denseMapErase, h, if_true]
        intro e he
        cases hke : keysMatch CBs k e.1 with
        | false => rfl
        | true => exact absurd (hx e he) (by simp [keysMatch_of_pair hsymm htrans h hke])
      · simp only [denseMapErase, h, if_false]
        intro e he
        rcases List.mem_cons.1 he with rfl | he
        · exact Bool.not_eq_true _ ▸ h
        · exact ih hrest e he

lemma setAndRetain_CBs (s : DefaultCache K V) (k : K) (v : V) (c : Nat) :
    (CacheImpl.setAndRetain s k v c).CBs = s.CBs := by
  cases hfind : findEntry? s.CBs s.Entries k <;>
    simp [CacheImpl.setAndRetain, hfind]

lemma setAndRetain_live (s : DefaultCache K V) (k : K) (v : V) (c : Nat) :
    (CacheImpl.setAndRetain s k v c).live = s.live := by
  cases hfind : findEntry? s.CBs s.Entries k <;>
    simp [CacheImpl.setAndRetain, hfind]

lemma setAndRetain_fresh {s : DefaultCache K V} {k : K} {v : V} {c : Nat}
    (habs : ∀ e ∈ s.Entries, keysMatch s.CBs k e.1 = false) :
    CacheImpl.setAndRetain s k v c = { s with Entries := s.Entries ++ [(k, v)] } := by
  have hfind : findEntry? s.CBs s.Entries k = none := findEntry?_eq_none.2 habs
  simp [CacheImpl.setAndRetain, hfind, denseMapAssign_absent habs]

lemma setAndRetain_decomp {s : DefaultCache K V} {k : K} {v : V} {c : Nat}
    (hsymm : ∀ x y, s.CBs.keyIsEqualCB x y = true → s.CBs.keyIsEqualCB y x = true)
    (htrans : ∀ x y z, s.CBs.keyIsEqualCB x y = true → s.CBs.keyIsEqualCB y z = true →
      s.CBs.keyIsEqualCB x z = true)
    (hpw : DistinctKeys s.CBs s.Entries) :
    ∃ pre, (CacheImpl.setAndRetain s k v c).Entries = pre ++ [(k, v)] ∧
      (∀ e ∈ pre, keysMatch s.CBs k e.1 = false) ∧ DistinctKeys s.CBs pre := by
  cases hfind : findEntry? s.CBs s.Entries k with
  | none =>
      have habs := findEntry?_eq_none.1 hfind
      exact ⟨s.Entries, by simp [CacheImpl.setAndRetain, hfind, denseMapAssign_absent habs],
        habs, hpw⟩
  | some e =>
      have habs := denseMapErase_absent (k := k) hsymm htrans hpw
      refine ⟨denseMapErase s.CBs k s.Entries, ?_, habs,
        List.Pairwise.sublist (denseMapErase_sublist s.CBs k s.Entries) hpw⟩
      simp [CacheImpl.setAndRetain, hfind, denseMapAssign_absent habs]

lemma distinct_append_single {CBs : CallBacks K V} {l : List (K × V)} {k : K} {v : V}
    (hsymm : ∀ x y, CBs.keyIsEqualCB x y = true → CBs.keyIsEqualCB y x = true)
    (hpw : DistinctKeys CBs l)
    (habs : ∀ e ∈ l, keysMatch CBs k e.1 = false) :
    DistinctKeys CBs (l ++ [(k, v)]) := by
  rw [DistinctKeys, List.pairwise_append]
  refine ⟨hpw, List.pairwise_singleton _ _, fun a ha b hb => ?_⟩
  rcases List.mem_singleton.1 hb with rfl
  exact keysMatch_symm_false hsymm (habs a ha)

lemma setAndRetain_distinct {s : DefaultCache K V} {k : K} {v : V} {c : Nat}
    (hsymm : ∀ x y, s.CBs.keyIsEqualCB x y = true → s.CBs.keyIsEqualCB y x = true)
    (htrans : ∀ x y z, s.CBs.keyIsEqualCB x y = true → s.CBs.keyIsEqualCB y z = true →
      s.CBs.keyIsEqualCB x z = true)
    (hpw : DistinctKeys s.CBs s.Entries) :
    DistinctKeys s.CBs (CacheImpl.setAndRetain s k v c).Entries := by
  obtain ⟨pre, heq, habs, hpre⟩ := setAndRetain_decomp (v := v) (c := c) hsymm htrans hpw
  rw [heq]
  exact distinct_append_single hsymm hpre habs

lemma runSets_CBs (ops : List (K × V × Nat)) (s : DefaultCache K V) :
    (runSets ops s).CBs = s.CBs := by
  induction ops generalizing s with
  | nil => rfl
  | cons op rest ih =>
      rw [show runSets (op :: rest) s =
            runSets rest (CacheImpl.setAndRetain s op.1 op.2.1 op.2.2) from rfl]
      rw [ih, setAndRetain_CBs]

lemma runSets_distinct (CBs : CallBacks K V)
    (hsymm : ∀ x y, CBs.keyIsEqualCB x y = true → CBs.keyIsEqualCB y x = true)
    (htrans : ∀ x y z, CBs.keyIsEqualCB x y = true → CBs.keyIsEqualCB y z = true →
      CBs.keyIsEqualCB x z = true) :
    ∀ (ops : List (K × V × Nat)) (s : DefaultCache K V), s.CBs = CBs →
      DistinctKeys CBs s.Entries → DistinctKeys CBs (runSets ops s).Entries := by
  intro ops
  induction ops with
  | nil => intro s _ hpw; exact hpw
  | cons op rest ih =>
      intro s hCBs hpw
      have hsymm2 : ∀ x y, s.CBs.keyIsEqualCB x y = true → s.CBs.keyIsEqualCB y x = true := by
        rw [hCBs]; exact hsymm
      have htrans2 : ∀ x y z, s.CBs.keyIsEqualCB x y = true →
          s.CBs.keyIsEqualCB y z = true → s.CBs.keyIsEqualCB x z = true := by
        rw [hCBs]; exact htrans
      have hpw2 : DistinctKeys s.CBs s.Entries := by rw [hCBs]; exact hpw
      have hstep := setAndRetain_distinct (k := op.1) (v := op.2.1) (c := op.2.2)
        hsymm2 htrans2 hpw2
      rw [show runSets (op :: rest) s =
            runSets rest (CacheImpl.setAndRetain s op.1 op.2.1 op.2.2) from rfl]
      exact ih _ (by rw [setAndRetain_CBs, hCBs]) (hCBs ▸ hstep)

lemma countP_le_one_of_distinct {CBs : CallBacks K V} {l : List (K × V)}
    (hsymm : ∀ x y, CBs.keyIsEqualCB x y = true → CBs.keyIsEqualCB y x = true)
    (htrans : ∀ x y z, CBs.keyIsEqualCB x y = true → CBs.keyIsEqualCB y z = true →
      CBs.keyIsEqualCB x z = true)
    (hpw : DistinctKeys CBs l) (k : K) :
    l.countP (fun e => CBs.keyIsEqualCB k e.1) ≤ 1 := by
  induction l with
  | nil => simp
  | cons x rest ih =>
      rcases List.pairwise_cons.1 hpw with ⟨hx, hrest⟩
      rw [List.countP_cons]
      by_cases hkx : CBs.keyIsEqualCB k x.1 = true
      · have hz : rest.countP (fun e => CBs.keyIsEqualCB k e.1) = 0 := by
          rw [List.countP_eq_zero]
          intro y hy
          simp only [Bool.not_eq_true]
          cases hky : CBs.keyIsEqualCB k y.1 with
          | false => rfl
          | true =>
              have hm : keysMatch CBs x.1 y.1 = true :=
                keysMatch_of_pair hsymm htrans (keysMatch_of_isEqual hkx)
                  (keysMatch_of_isEqual hky)
              exact absurd (hx y hy) (by simp [hm])
        simp [hz, hkx]
      · have hb : (CBs.keyIsEqualCB k x.1 : Bool) = false := by
          cases h : CBs.keyIsEqualCB k x.1 with
          | false => rfl
          | true => exact absurd h hkx
        simp only [hb, Bool.false_eq_true, if_false, Nat.add_zero]
        exact ih hrest

lemma ne_of_keysMatch_false {CBs : CallBacks K V} {a b : K}
    (h : keysMatch CBs a b = false) : a ≠ b := by
  intro hab
  rw [hab, keysMatch_self] at h
  cases h

lemma count_destroyKey_flatMap_absent {l : List (K × V)} {a : K}
    (h : ∀ y ∈ l, y.1 ≠ a) :
    (l.flatMap fun x =>
        [CacheEvent.destroyKey x.1, CacheEvent.destroyValue (V := V) x.2]).count
      (CacheEvent.destroyKey a) = 0 := by
  induction l with
  | nil => rfl
  | cons x rest ih =>
      rw [List.flatMap_cons, List.count_append, ih fun y hy => h y (by simp [hy])]
      have hxa : x.1 ≠ a := h x (by simp)
      simp [List.count_cons, hxa]

lemma count_destroyKey_flatMap_mem {CBs : CallBacks K V} {l : List (K × V)}
    (hpw : DistinctKeys CBs l) :
    ∀ e ∈ l,
      (l.flatMap fun x =>
          [CacheEvent.destroyKey x.1, CacheEvent.destroyValue x.2]).count
        (CacheEvent.destroyKey e.1) = 1 := by
  induction l with
  | nil => intro e he; cases he
  | cons x rest ih =>
      rcases List.pairwise_cons.1 hpw with ⟨hx, hrest⟩
      intro e he
      rw [List.flatMap_cons, List.count_append]
      rcases List.mem_cons.1 he with rfl | he2
      · have hz := count_destroyKey_flatMap_absent (l := rest) (a := e.1)
          fun y hy => fun hme => (ne_of_keysMatch_false (hx y hy)) hme.symm
        simp [List.count_cons, hz]
      · have hne : x.1 ≠ e.1 := ne_of_keysMatch_false (hx e he2)
        rw [ih hrest e he2]
        simp [List.count_cons, hne]

/-- C1: after any sequence of setAndRetain calls starting from a freshly
created cache, if the equality callback is symmetric and transitive and holds
on the pair (k1, k2), the mapping contains at most one entry in the
equivalence class of k1 and at most one in that of k2: a second set with an
equivalent key replaced the existing entry instead of duplicating it. -/
theorem C1_set_uniqueness (CBs : CallBacks K V) (Name : String)
    (hsymm : ∀ x y, CBs.keyIsEqualCB x y = true → CBs.keyIsEqualCB y x = true)
    (htrans : ∀ x y z, CBs.keyIsEqualCB x y = true → CBs.keyIsEqualCB y z = true →
      CBs.keyIsEqualCB x z = true)
    (ops : List (K × V × Nat)) (k1 k2 : K)
    (h12 : CBs.keyIsEqualCB k1 k2 = true) :
    (runSets ops (CacheImpl.create Name CBs)).Entries.countP
        (fun e => CBs.keyIsEqualCB k1 e.1) ≤ 1 ∧
    (runSets ops (CacheImpl.create Name CBs)).Entries.countP
        (fun e => CBs.keyIsEqualCB k2 e.1) ≤ 1 := by
  have hpw : DistinctKeys CBs (runSets ops (CacheImpl.create Name CBs)).Entries :=
    runSets_distinct CBs hsymm htrans ops _ rfl List.Pairwise.nil
  exact ⟨countP_le_one_of_distinct hsymm htrans hpw k1,
    countP_le_one_of_distinct hsymm htrans hpw k2⟩

/-- C3: when no key equivalent to k is stored, setAndRetain(k, v) followed by
remove(k) returns true, the destroy callbacks fire exactly once on the stored
pair (k, v) and on nothing else, the mapping returns to its previous
contents, and a subsequent getAndRetain(k) reports not-found. -/
theorem C3_remove_round_trip (s : DefaultCache K V) (k : K) (v : V) (c : Nat)
    (hrefl : ∀ x, s.CBs.keyIsEqualCB x x = true)
    (habs : ∀ e ∈ s.Entries, s.CBs.keyIsEqualCB k e.1 = false) :
    (CacheImpl.remove (CacheImpl.setAndRetain s k v c) k).1 = true ∧
    (CacheImpl.remove (CacheImpl.setAndRetain s k v c) k).2.events =
      s.events ++ [CacheEvent.destroyKey k, CacheEvent.destroyValue v] ∧
    (CacheImpl.remove (CacheImpl.setAndRetain s k v c) k).2.Entries = s.Entries ∧
    (CacheImpl.getAndRetain
        (CacheImpl.remove (CacheImpl.setAndRetain s k v c) k).2 k).1 = none := by
  have habs2 : ∀ e ∈ s.Entries, keysMatch s.CBs k e.1 = false :=
    fun e he => keysMatch_eq_false hrefl (habs e he)
  rw [setAndRetain_fresh habs2]
  have hfind : findEntry? s.CBs (s.Entries ++ [(k, v)]) k = some (k, v) := by
    rw [findEntry?_append_absent habs2]
    exact List.find?_cons_of_pos _ (keysMatch_self s.CBs k)
  have herase : denseMapErase s.CBs k (s.Entries ++ [(k, v)]) = s.Entries := by
    rw [denseMapErase_append_absent habs2]
    simp [denseMapErase, keysMatch_self]
  have hnone := findEntry?_eq_none.2 habs2
  refine ⟨?_, ?_, ?_, ?_⟩ <;>
    simp [CacheImpl.remove, CacheImpl.getAndRetain, hfind, herase, hnone]

/-- C4: removeAll empties the mapping, getAndRetain afterwards reports
not-found for every key, the destroy callbacks fire in iteration order once
per entry (one destroyKey and one destroyValue each), and when the stored
keys are distinct the destroyKey count for each stored key rises by exactly
one. -/
theorem C4_remove_all_clears (s : DefaultCache K V)
    (hpw : DistinctKeys s.CBs s.Entries) :
    (CacheImpl.removeAll s).Entries = [] ∧
    (∀ k : K, (CacheImpl.getAndRetain (CacheImpl.removeAll s) k).1 = none) ∧
    (CacheImpl.removeAll s).events =
      s.events ++ s.Entries.flatMap
        (fun e => [CacheEvent.destroyKey e.1, CacheEvent.destroyValue e.2]) ∧
    ∀ e ∈ s.Entries,
      (CacheImpl.removeAll s).events.count (CacheEvent.destroyKey e.1) =
        s.events.count (CacheEvent.destroyKey e.1) + 1 := by
  refine ⟨rfl, fun k => rfl, rfl, fun e he => ?_⟩
  rw [show (CacheImpl.removeAll s).events =
        s.events ++ s.Entries.flatMap
          (fun x => [CacheEvent.destroyKey x.1, CacheEvent.destroyValue x.2]) from rfl,
    List.count_append, count_destroyKey_flatMap_mem hpw e he]

/-- C5: when no key equivalent to k is stored (in particular on an empty
cache), getAndRetain reports not-found as an ordinary result and remove
returns false leaving the state, including the destroy-event log, entirely
unchanged. -/
theorem C5_absent_is_value (s : DefaultCache K V) (k : K)
    (hrefl : ∀ x, s.CBs.keyIsEqualCB x x = true)
    (habs : ∀ e ∈ s.Entries, s.CBs.keyIsEqualCB k e.1 = false) :
    (CacheImpl.getAndRetain s k).1 = none ∧
    CacheImpl.remove s k = (false, s) := by
  have habs2 : ∀ e ∈ s.Entries, keysMatch s.CBs k e.1 = false :=
    fun e he => keysMatch_eq_false hrefl (habs e he)
  have hfind := findEntry?_eq_none.2 habs2
  constructor <;> simp [CacheImpl.getAndRetain, CacheImpl.remove, hfind]

/-- C10: a setAndRetain on a live cache whose key is equivalent to no stored
key invokes no destroy callback, appends exactly the one new entry, and
leaves every previously stored entry unchanged in place. -/
theorem C10_fresh_insert_frame (s : DefaultCache K V) (k : K) (v : V) (c : Nat)
    (hlive : s.live = true)
    (hrefl : ∀ x, s.CBs.keyIsEqualCB x x = true)
    (habs : ∀ e ∈ s.Entries, s.CBs.keyIsEqualCB k e.1 = false) :
    (CacheImpl.setAndRetain s k v c).events = s.events ∧
    (CacheImpl.setAndRetain s k v c).Entries = s.Entries ++ [(k, v)] := by
  have habs2 : ∀ e ∈ s.Entries, keysMatch s.CBs k e.1 = false :=
    fun e he => keysMatch_eq_false hrefl (habs e he)
  rw [setAndRetain_fresh habs2]
  exact ⟨rfl, rfl⟩

lemma setAndRetain_found {s : DefaultCache K V} {k : K} {e : K × V} {v : V} {c : Nat}
    (hfind : findEntry? s.CBs s.Entries k = some e) :
    CacheImpl.setAndRetain s k v c =
      { s with
        events := s.events ++ [CacheEvent.destroyKey e.1, CacheEvent.destroyValue e.2],
        Entries := denseMapAssign s.CBs k v (denseMapErase s.CBs k s.Entries) } := by
  simp [CacheImpl.setAndRetain, hfind]

/-- C2: on a reachable cache state (one whose stored keys are pairwise
non-matching), setAndRetain(k, v1) followed by setAndRetain(kp, v2) with the
equality callback true on (k, kp) makes the second call invoke destroyKey and
destroyValue exactly once each, precisely on the stored pair (k, v1) and
before the new pair is stored; the new pair (kp, v2) ends up stored and is
never passed to a destroy callback by the second call. -/
theorem C2_replace_destroys_old (s : DefaultCache K V) (k kp : K) (v1 v2 : V)
    (c1 c2 : Nat)
    (hsymm : ∀ x y, s.CBs.keyIsEqualCB x y = true → s.CBs.keyIsEqualCB y x = true)
    (htrans : ∀ x y z, s.CBs.keyIsEqualCB x y = true → s.CBs.keyIsEqualCB y z = true →
      s.CBs.keyIsEqualCB x z = true)
    (hpw : DistinctKeys s.CBs s.Entries)
    (heq : s.CBs.keyIsEqualCB k kp = true) :
    (CacheImpl.setAndRetain (CacheImpl.setAndRetain s k v1 c1) kp v2 c2).events =
      (CacheImpl.setAndRetain s k v1 c1).events ++
        [CacheEvent.destroyKey k, CacheEvent.destroyValue v1] ∧
    (kp, v2) ∈ (CacheImpl.setAndRetain (CacheImpl.setAndRetain s k v1 c1) kp v2 c2).Entries ∧
    (kp ≠ k →
      (CacheImpl.setAndRetain (CacheImpl.setAndRetain s k v1 c1) kp v2 c2).events.count
          (CacheEvent.destroyKey kp) =
        (CacheImpl.setAndRetain s k v1 c1).events.count (CacheEvent.destroyKey kp)) ∧
    (v2 ≠ v1 →
      (CacheImpl.setAndRetain (CacheImpl.setAndRetain s k v1 c1) kp v2 c2).events.count
          (CacheEvent.destroyValue v2) =
        (CacheImpl.setAndRetain s k v1 c1).events.count (CacheEvent.destroyValue v2)) := by
  obtain ⟨pre, hent, habs, hpre⟩ :=
    setAndRetain_decomp (k := k) (v := v1) (c := c1) hsymm htrans hpw
  have hCBs1 : (CacheImpl.setAndRetain s k v1 c1).CBs = s.CBs := setAndRetain_CBs s k v1 c1
  have habsp : ∀ e ∈ pre, keysMatch s.CBs kp e.1 = false := by
    intro e he
    cases hm : keysMatch s.CBs kp e.1 with
    | false => rfl
    | true =>
        have hke : keysMatch s.CBs k e.1 = true :=
          keysMatch_trans htrans (keysMatch_of_isEqual heq) hm
        exact absurd (habs e he) (by simp [hke])
  have hmkpk : keysMatch s.CBs kp k = true := keysMatch_of_isEqual (hsymm k kp heq)
  have hfind1 : findEntry? (CacheImpl.setAndRetain s k v1 c1).CBs
      (CacheImpl.setAndRetain s k v1 c1).Entries kp = some (k, v1) := by
    rw [hCBs1, hent, findEntry?_append_absent habsp]
    exact List.find?_cons_of_pos _ hmkpk
  have herase1 : denseMapErase s.CBs kp (CacheImpl.setAndRetain s k v1 c1).Entries = pre := by
    rw [hent, denseMapErase_append_absent habsp]
    simp [denseMapErase, hmkpk]
  rw [setAndRetain_found hfind1]
  refine ⟨rfl, ?_, ?_, ?_⟩
  · show (kp, v2) ∈ denseMapAssign (CacheImpl.setAndRetain s k v1 c1).CBs kp v2
      (denseMapErase (CacheImpl.setAndRetain s k v1 c1).CBs kp
        (CacheImpl.setAndRetain s k v1 c1).Entries)
    rw [hCBs1, herase1, denseMapAssign_absent habsp]
    exact List.mem_append_right pre (by simp)
  · intro hne
    show ((CacheImpl.setAndRetain s k v1 c1).events ++
        [CacheEvent.destroyKey k, CacheEvent.destroyValue v1]).count
          (CacheEvent.destroyKey kp) = _
    rw [List.count_append]
    have hz : ([CacheEvent.destroyKey k, CacheEvent.destroyValue v1] :
        List (CacheEvent K V)).count (CacheEvent.destroyKey kp) = 0 :=
      List.count_eq_zero.2 (by simp [hne])
    rw [hz, Nat.add_zero]
  · intro hne
    show ((CacheImpl.setAndRetain s k v1 c1).events ++
        [CacheEvent.destroyKey k, CacheEvent.destroyValue v1]).count
          (CacheEvent.destroyValue v2) = _
    rw [List.count_append]
    have hz : ([CacheEvent.destroyKey k, CacheEvent.destroyValue v1] :
        List (CacheEvent K V)).count (CacheEvent.destroyValue v2) = 0 :=
      List.count_eq_zero.2 (by simp [hne])
    rw [hz, Nat.add_zero]

/-- C6: releaseValue is a no-op on the cache state (its body in the source is
an empty FIXME placeholder), and getAndRetain performs no state change at all
— in particular no retain that a releaseValue would have to undo. -/
theorem C6_releaseValue_noop (s : DefaultCache K V) (v : V) (k : K) :
    CacheImpl.releaseValue s v = s ∧ (CacheImpl.getAndRetain s k).2 = s :=
  ⟨rfl, rfl⟩

/-- C7: the Cost argument of setAndRetain is inert — two calls differing only
in cost produce identically equal states (same mapping, same destroy-event
log). -/
theorem C7_cost_inert (s : DefaultCache K V) (k : K) (v : V) (c1 c2 : Nat) :
    CacheImpl.setAndRetain s k v c1 = CacheImpl.setAndRetain s k v c2 := rfl

/-- C8: destroy coincides with the spec-side description removeAll followed
by releasing the instance storage: same destroy-callback invocations as
removeAll (once per remaining entry), empty mapping, and the handle marked
dead. -/
theorem C8_destroy_is_removeAll_then_free (s : DefaultCache K V) :
    CacheImpl.destroy s = destroySpec s ∧
    (CacheImpl.destroy s).live = false ∧
    (CacheImpl.destroy s).events = (CacheImpl.removeAll s).events ∧
    (CacheImpl.destroy s).Entries = [] :=
  ⟨rfl, rfl, rfl, rfl⟩

/-- Witness for C1: the uniqueness bound holds for a concrete callback table
(equality modulo 2 on Fin 4) and a concrete sequence of three set calls, two
of them with equivalent keys. -/
theorem C1_set_uniqueness_witness :
    (∀ x y, testCBs.keyIsEqualCB x y = true → testCBs.keyIsEqualCB y x = true) ∧
    (∀ x y z, testCBs.keyIsEqualCB x y = true → testCBs.keyIsEqualCB y z = true →
      testCBs.keyIsEqualCB x z = true) ∧
    testCBs.keyIsEqualCB 0 2 = true ∧
    ((runSets [(0, 1, 0), (2, 2, 0), (1, 3, 5)] testCache).Entries.countP
        (fun e => testCBs.keyIsEqualCB 0 e.1) ≤ 1 ∧
      (runSets [(0, 1, 0), (2, 2, 0), (1, 3, 5)] testCache).Entries.countP
        (fun e => testCBs.keyIsEqualCB 2 e.1) ≤ 1) :=
  ⟨by decide, by decide, by decide,
    C1_set_uniqueness testCBs testName (by decide) (by decide)
      [(0, 1, 0), (2, 2, 0), (1, 3, 5)] 0 2 (by decide)⟩

/-- Witness for C2: replacing the entry (0, 1) through the equivalent key 2
on a concrete cache destroys exactly the old pair. -/
theorem C2_replace_destroys_old_witness :
    (∀ x y, testCache.CBs.keyIsEqualCB x y = true →
      testCache.CBs.keyIsEqualCB y x = true) ∧
    (∀ x y z, testCache.CBs.keyIsEqualCB x y = true →
      testCache.CBs.keyIsEqualCB y z = true →
      testCache.CBs.keyIsEqualCB x z = true) ∧
    DistinctKeys testCache.CBs testCache.Entries ∧
    testCache.CBs.keyIsEqualCB 0 2 = true ∧
    ((CacheImpl.setAndRetain (CacheImpl.setAndRetain testCache 0 1 0) 2 3 7).events =
        (CacheImpl.setAndRetain testCache 0 1 0).events ++
          [CacheEvent.destroyKey 0, CacheEvent.destroyValue 1] ∧
      (2, 3) ∈
        (CacheImpl.setAndRetain (CacheImpl.setAndRetain testCache 0 1 0) 2 3 7).Entries ∧
      ((2 : Fin 4) ≠ 0 →
        (CacheImpl.setAndRetain (CacheImpl.setAndRetain testCache 0 1 0) 2 3 7).events.count
            (CacheEvent.destroyKey 2) =
          (CacheImpl.setAndRetain testCache 0 1 0).events.count (CacheEvent.destroyKey 2)) ∧
      ((3 : Fin 4) ≠ 1 →
        (CacheImpl.setAndRetain (CacheImpl.setAndRetain testCache 0 1 0) 2 3 7).events.count
            (CacheEvent.destroyValue 3) =
          (CacheImpl.setAndRetain testCache 0 1 0).events.count (CacheEvent.destroyValue 3))) :=
  ⟨by decide, by decide, List.Pairwise.nil, by decide,
    C2_replace_destroys_old testCache 0 2 1 3 0 7 (by decide) (by decide)
      List.Pairwise.nil (by decide)⟩

/-- Witness for C3: on the fresh concrete cache, set(0, 1) then remove(0)
returns true, destroys the pair once, restores the mapping and makes get(0)
report not-found. -/
theorem C3_remove_round_trip_witness :
    (∀ x, testCache.CBs.keyIsEqualCB x x = true) ∧
    (∀ e ∈ testCache.Entries, testCache.CBs.keyIsEqualCB 0 e.1 = false) ∧
    ((CacheImpl.remove (CacheImpl.setAndRetain testCache 0 1 2) 0).1 = true ∧
      (CacheImpl.remove (CacheImpl.setAndRetain testCache 0 1 2) 0).2.events =
        testCache.events ++ [CacheEvent.destroyKey 0, CacheEvent.destroyValue 1] ∧
      (CacheImpl.remove (CacheImpl.setAndRetain testCache 0 1 2) 0).2.Entries =
        testCache.Entries ∧
      (CacheImpl.getAndRetain
          (CacheImpl.remove (CacheImpl.setAndRetain testCache 0 1 2) 0).2 0).1 = none) :=
  ⟨by decide, by decide,
    C3_remove_round_trip testCache 0 1 2 (by decide) (by decide)⟩

/-- Witness for C4: removeAll on a concrete cache with the two entries
(0, 1) and (1, 2) empties it and logs each destroy exactly once. -/
theorem C4_remove_all_clears_witness :
    DistinctKeys testCache2.CBs testCache2.Entries ∧
    ((CacheImpl.removeAll testCache2).Entries = [] ∧
      (∀ k : Fin 4, (CacheImpl.getAndRetain (CacheImpl.removeAll testCache2) k).1 = none) ∧
      (CacheImpl.removeAll testCache2).events =
        testCache2.events ++ testCache2.Entries.flatMap
          (fun e => [CacheEvent.destroyKey e.1, CacheEvent.destroyValue e.2]) ∧
      ∀ e ∈ testCache2.Entries,
        (CacheImpl.removeAll testCache2).events.count (CacheEvent.destroyKey e.1) =
          testCache2.events.count (CacheEvent.destroyKey e.1) + 1) :=
  ⟨by unfold DistinctKeys; decide,
    C4_remove_all_clears testCache2 (by unfold DistinctKeys; decide)⟩

/-- Witness for C5: on the fresh concrete cache, get(3) reports not-found
and remove(3) returns false leaving the state untouched. -/
theorem C5_absent_is_value_witness :
    (∀ x, testCache.CBs.keyIsEqualCB x x = true) ∧
    (∀ e ∈ testCache.Entries, testCache.CBs.keyIsEqualCB 3 e.1 = false) ∧
    ((CacheImpl.getAndRetain testCache 3).1 = none ∧
      CacheImpl.remove testCache 3 = (false, testCache)) :=
  ⟨by decide, by decide, C5_absent_is_value testCache 3 (by decide) (by decide)⟩

/-- Witness for C10: inserting key 1 into the concrete cache that holds only
the inequivalent key 0 appends exactly the new entry and fires no destroy
callback. -/
theorem C10_fresh_insert_frame_witness :
    testCache1.live = true ∧
    (∀ x, testCache1.CBs.keyIsEqualCB x x = true) ∧
    (∀ e ∈ testCache1.Entries, testCache1.CBs.keyIsEqualCB 1 e.1 = false) ∧
    ((CacheImpl.setAndRetain testCache1 1 2 6).events = testCache1.events ∧
      (CacheImpl.setAndRetain testCache1 1 2 6).Entries =
        testCache1.Entries ++ [(1, 2)]) :=
  ⟨by decide, by decide, by decide,
    C10_fresh_insert_frame testCache1 1 2 6 (by decide) (by decide) (by decide)⟩

end TinySwiftCache
